import Mathlib

/-!
Verification development for the HiGHS phase-2 primal simplex engine
(`src/simplex/HEkk.h`, `HighsModelObject` header with `BasisInfo`).

The repository sources available are header files: they fix the data model
(status-flag bundle, basis record, working arrays, counters, ray fields) with
their initial values, while the bodies of `init()`, `solve()`, `update()` and
the initialisation routines are declared but not present.  Where a claim is
decided by a declaration or an in-class initializer, the Lean definition is a
direct embedding of that header text.  Where a claim is decided by a missing
body, the definition is modelled from the specification and its doc comment
says so.
-/

namespace HEkkSpec

/-- Modelled from the spec: the simplex algorithm selector referenced by
`HEkk.h` as `SimplexAlgorithm::PRIMAL`; the spec describes primal and dual
variants of the solver. -/
inductive SimplexAlgorithm where
  | PRIMAL
  | DUAL
deriving DecidableEq, Repr

/-- Modelled from the spec: the terminal outcomes of a solve listed in the
spec (OPTIMAL / INFEASIBLE / UNBOUNDED / TIME_LIMIT / ITERATION_LIMIT),
together with the UNSET default referenced by `HEkk.h` as
`SimplexSolutionStatus::UNSET`. -/
inductive SimplexSolutionStatus where
  | UNSET
  | OPTIMAL
  | INFEASIBLE
  | UNBOUNDED
  | TIME_LIMIT
  | ITERATION_LIMIT
deriving DecidableEq, Repr

/-- The status-flag bundle of `HEkk.h` (struct `HighsEkkStatus`, lines 28-55).
Every field carries the in-class initializer written in the header:
each boolean defaults to `false` and `solution_status` defaults to
`SimplexSolutionStatus::UNSET`. -/
structure HighsEkkStatus where
  valid : Bool := false
  is_dualised : Bool := false
  is_permuted : Bool := false
  scaling_tried : Bool := false
  has_basis : Bool := false
  has_matrix_col_wise : Bool := false
  has_matrix_row_wise : Bool := false
  has_factor_arrays : Bool := false
  has_dual_steepest_edge_weights : Bool := false
  has_nonbasic_dual_values : Bool := false
  has_basic_primal_values : Bool := false
  has_invert : Bool := false
  has_fresh_invert : Bool := false
  has_fresh_rebuild : Bool := false
  has_dual_objective_value : Bool := false
  has_primal_objective_value : Bool := false
  has_dual_ray : Bool := false
  has_primal_ray : Bool := false
  solution_status : SimplexSolutionStatus := SimplexSolutionStatus.UNSET
deriving DecidableEq, Repr

/-- The status bundle as default-initialised on construction of the engine:
the constructor `HEkk(HighsLp&, SimplexBasis&, HighsOptions&)` initializes
only the three references, so `simplex_lp_status` takes the in-class
defaults of `HighsEkkStatus`. -/
def initialHighsEkkStatus : HighsEkkStatus := {}

/-- Modelled from the spec: a rebuild/refactorization recomputes the invert,
the basic primal values, the nonbasic dual values and the objective values
from scratch, so it sets exactly the flags recording that data. -/
def afterRebuild (st : HighsEkkStatus) : HighsEkkStatus :=
  { st with
    has_invert := true
    has_fresh_invert := true
    has_fresh_rebuild := true
    has_nonbasic_dual_values := true
    has_basic_primal_values := true
    has_dual_objective_value := true
    has_primal_objective_value := true }

/-- Modelled from the spec: a basis change (pivot update) invalidates the
freshness of the factorization and of the rebuilt data, while the updated
representation of the inverse still corresponds to the new basis. -/
def afterBasisChange (st : HighsEkkStatus) : HighsEkkStatus :=
  { st with
    has_fresh_invert := false
    has_fresh_rebuild := false }

/-- Modelled from the spec: the per-variable basis state recorded in
`nonbasic_flag` marks each combined variable as basic, nonbasic at its lower
bound, nonbasic at its upper bound, or free. -/
inductive NonbasicFlag where
  | basic
  | atLower
  | atUpper
  | free
deriving DecidableEq, Repr

/-- A flag value counts as nonbasic exactly when it is not `basic`. -/
def NonbasicFlag.isNonbasic : NonbasicFlag → Bool
  | .basic => false
  | _ => true

/-- The basis record of the `HighsModelObject` header (struct `BasisInfo`):
`basis_index` lists the m basic variables and `nonbasic_flag` holds one flag
per combined variable.  The header stores the flag as an `int`; its value
space is modelled from the spec as `NonbasicFlag`. -/
structure BasisInfo where
  basis_index : List Nat
  nonbasic_flag : List NonbasicFlag
deriving DecidableEq, Repr

/-- The basic-count invariant of the spec: `basis_index` has exactly
`numRow` entries, `nonbasic_flag` covers all `numTot = n + m` combined
variables, and exactly `numRow` of them are flagged basic. -/
def basisCountInvariant (numRow numTot : Nat) (b : BasisInfo) : Prop :=
  b.basis_index.length = numRow ∧
  b.nonbasic_flag.length = numTot ∧
  b.nonbasic_flag.count NonbasicFlag.basic = numRow

instance (numRow numTot : Nat) (b : BasisInfo) :
    Decidable (basisCountInvariant numRow numTot b) := by
  unfold basisCountInvariant; infer_instance

/-- Modelled from the spec: the pivot's basis update (spec 4.4 step 4,
"flip nonbasic/basic flags") — the entering variable `columnIn` replaces the
leaving variable `basis_index[rowOut]` in the basis, the entering variable is
flagged basic, and the leaving variable is flagged nonbasic at the bound
`outFlag` reached in the ratio test. -/
def update (b : BasisInfo) (rowOut columnIn : Nat) (outFlag : NonbasicFlag) :
    BasisInfo :=
  let columnOut := b.basis_index.getD rowOut 0
  { basis_index := b.basis_index.set rowOut columnIn
    nonbasic_flag :=
      (b.nonbasic_flag.set columnIn NonbasicFlag.basic).set columnOut outFlag }

/-- The update bookkeeping of the factorization: `update_count` is the
number of UPDATE operations performed, which the header says should be
zeroed when INVERT is performed, and `update_limit` is the option bounding
cumulative updates between refactorizations. -/
structure FactorUpdateState where
  update_count : Nat
  update_limit : Nat
deriving DecidableEq, Repr

/-- `computeFactor()` performs INVERT; per the header comment on
`update_count`, the count of UPDATE operations is zeroed when INVERT is
performed. -/
def computeFactor (s : FactorUpdateState) : FactorUpdateState :=
  { s with update_count := 0 }

/-- Modelled from the spec: each pivot applies an incremental factorization
update, incrementing `update_count`; every `update_limit` updates, or on a
numerical-stability warning, a full rebuild (INVERT) is forced, which zeroes
the count. -/
def afterPivotUpdate (s : FactorUpdateState) (stabilityWarning : Bool) :
    FactorUpdateState :=
  let s1 : FactorUpdateState := { s with update_count := s.update_count + 1 }
  if stabilityWarning = true ∨ s.update_limit ≤ s1.update_count then
    computeFactor s1
  else
    s1

/-- The sequence of incremental updates performed between the start of the
pivot loop (fresh INVERT) and its end, each pivot carrying its
stability-warning outcome. -/
def runPivotUpdates (s : FactorUpdateState) (warnings : List Bool) :
    FactorUpdateState :=
  warnings.foldl afterPivotUpdate s

/-- Modelled from the spec: `initialiseNonbasicWorkValue()` sets each
nonbasic `workValue` entry to its bound — the lower bound, unless the
variable is flagged at-upper (then the upper bound) or free (then
conventionally zero) — while a basic entry keeps its current value.  The
arguments are the per-variable flag list and the `workLower_`, `workUpper_`
and current `workValue_` arrays; reals are embedded as rationals. -/
def initialiseNonbasicWorkValue :
    List NonbasicFlag → List ℚ → List ℚ → List ℚ → List ℚ
  | f :: fs, l :: ls, u :: us, v :: vs =>
    (match f with
     | NonbasicFlag.atLower => l
     | NonbasicFlag.atUpper => u
     | NonbasicFlag.free => 0
     | NonbasicFlag.basic => v) :: initialiseNonbasicWorkValue fs ls us vs
  | _, _, _, _ => []

/-- Modelled from the spec: a Devex weight reset sets every entry of
`devex_weight` to unity. -/
def resetDevexWeights (n : Nat) : List ℚ :=
  List.replicate n 1

/-- Modelled from the spec: the candidate new weight of a variable affected
by the pivot, `(alpha / alpha_pivot)^2 * pivot_weight` in the standard Devex
recurrence. -/
def devexCandidate (alpha alphaPivot pivotWeight : ℚ) : ℚ :=
  (alpha / alphaPivot) ^ 2 * pivotWeight

/-- Modelled from the spec: after a pivot each affected weight is updated to
`max(weight, (alpha / alpha_pivot)^2 * pivot_weight)`. -/
def updateDevexWeights (ws alphas : List ℚ) (alphaPivot pivotWeight : ℚ) :
    List ℚ :=
  ws.zipWith (fun w a => max w (devexCandidate a alphaPivot pivotWeight))
    alphas

/-- A segment of the pivot loop on the Devex weights: the given sequence of
pivot updates applied in order, each carrying its pivot-column coefficients,
pivot coefficient and pivot weight. -/
def runDevexUpdates (ws : List ℚ) (updates : List (List ℚ × ℚ × ℚ)) :
    List ℚ :=
  updates.foldl (fun cur u => updateDevexWeights cur u.1 u.2.1 u.2.2) ws

/-- Modelled from the spec: the state the pivot loop of `solve()` operates
on.  The factorization's action is represented by the maintained tableau
(the constraint rows premultiplied by the basis inverse), `baseValue_` holds
the basic primal values, `workDual_` the reduced costs, and
`isPrimalPhase1` the phase flag.  The ray scalars of the header
(`dual_ray_row_`, `dual_ray_sign_`, `primal_ray_col_`, `primal_ray_sign_`)
are plain ints left unwritten until a ray is recorded; they are embedded as
`Option` so that "populated" is observable. -/
structure SolveState where
  tableau : List (List ℚ)
  baseValue_ : List ℚ
  workDual_ : List ℚ
  primal_objective_value : ℚ
  isPrimalPhase1 : Bool
  model_status : SimplexSolutionStatus
  simplex_lp_status : HighsEkkStatus
  dual_ray_row_ : Option Nat
  dual_ray_sign_ : Option Int
  primal_ray_col_ : Option Nat
  primal_ray_sign_ : Option Int
deriving DecidableEq, Repr

/-- Modelled from the spec: pricing selects the entering variable as the
lowest-index candidate whose reduced cost is negative (exact arithmetic, so
the spec's tolerance is zero); `none` means no candidate improves the
objective. -/
def chooseEntering (s : SolveState) : Option Nat :=
  s.workDual_.findIdx? (fun d => decide (d < 0))

/-- The pivot column of candidate `j`: entry `j` of every tableau row. -/
def pivotColumn (s : SolveState) (j : Nat) : List ℚ :=
  s.tableau.map (fun row => row.getD j 0)

/-- Modelled from the spec: the ratio test scans the basic variables'
distances to their bounds along the pivot direction and picks the minimum
positive ratio, ties broken towards the lowest row index; `none` means no
basic variable bounds the step, i.e. the problem is unbounded along this
column. -/
def ratioTest (s : SolveState) (j : Nat) : Option Nat :=
  let col := pivotColumn s j
  let cands := (List.range col.length).filterMap (fun r =>
    let a := col.getD r 0
    if 0 < a then some (r, s.baseValue_.getD r 0 / a) else none)
  (cands.foldl (fun best c =>
    match best with
    | none => some c
    | some b => if c.2 < b.2 then some c else some b) none).map (fun p => p.1)

/-- Modelled from the spec: apply the pivot on entering column `j` and
leaving row `r` — a rank-1 (Gaussian) update of the maintained tableau, of
the basic values, of the reduced costs and of the running objective. -/
def pivotOp (s : SolveState) (j r : Nat) : SolveState :=
  let col := pivotColumn s j
  let piv := (s.tableau.getD r []).getD j 0
  let prow := (s.tableau.getD r []).map (fun x => x / piv)
  let pval := s.baseValue_.getD r 0 / piv
  let dj := s.workDual_.getD j 0
  { s with
    tableau := s.tableau.mapIdx (fun i row =>
      if i = r then prow
      else row.zipWith (fun x p => x - (col.getD i 0) * p) prow)
    baseValue_ := s.baseValue_.mapIdx (fun i v =>
      if i = r then pval else v - (col.getD i 0) * pval)
    workDual_ := s.workDual_.mapIdx (fun k d => d - dj * (prow.getD k 0))
    primal_objective_value := s.primal_objective_value - dj * pval }

/-- Modelled from the spec: declare the solve optimal — terminal state
`OPTIMAL` recorded in `model_status` and in the status bundle. -/
def setOptimal (s : SolveState) : SolveState :=
  { s with
    model_status := SimplexSolutionStatus.OPTIMAL
    simplex_lp_status :=
      { s.simplex_lp_status with
        solution_status := SimplexSolutionStatus.OPTIMAL } }

/-- Modelled from the spec: the iteration-limit terminal state taken when
the caller's iteration cap is reached at an iteration boundary. -/
def setIterationLimit (s : SolveState) : SolveState :=
  { s with
    model_status := SimplexSolutionStatus.ITERATION_LIMIT
    simplex_lp_status :=
      { s.simplex_lp_status with
        solution_status := SimplexSolutionStatus.ITERATION_LIMIT } }

/-- Modelled from the spec: on detecting infeasibility in phase 1, record
the dual ray — the failing row index and the sign of the corresponding dual
value — set `has_dual_ray` and terminate `INFEASIBLE`. -/
def recordDualRay (s : SolveState) (r : Nat) : SolveState :=
  { s with
    model_status := SimplexSolutionStatus.INFEASIBLE
    simplex_lp_status :=
      { s.simplex_lp_status with
        solution_status := SimplexSolutionStatus.INFEASIBLE
        has_dual_ray := true }
    dual_ray_row_ := some r
    dual_ray_sign_ := some (-1) }

/-- Modelled from the spec: on detecting unboundedness, record the primal
ray — the entering column index and the sign of its unbounded direction —
set `has_primal_ray` and terminate `UNBOUNDED`. -/
def recordPrimalRay (s : SolveState) (j : Nat) : SolveState :=
  { s with
    model_status := SimplexSolutionStatus.UNBOUNDED
    simplex_lp_status :=
      { s.simplex_lp_status with
        solution_status := SimplexSolutionStatus.UNBOUNDED
        has_primal_ray := true }
    primal_ray_col_ := some j
    primal_ray_sign_ := some 1 }

/-- Modelled from the spec: the pivot loop of `solve()`.  Each round asks
pricing for an entering candidate; with no candidate, phase 1 either
certifies infeasibility (some basic value below its bound) or hands over to
phase 2, and phase 2 declares optimality; with a candidate, the ratio test
either certifies unboundedness or yields the leaving row, and the pivot is
applied.  `fuel` is the iteration cap; the second component counts the
pivots performed. -/
def solveLoop : Nat → SolveState → SolveState × Nat
  | 0, s => (setIterationLimit s, 0)
  | fuel + 1, s =>
    match chooseEntering s with
    | none =>
      if s.isPrimalPhase1 then
        match s.baseValue_.findIdx? (fun v => decide (v < 0)) with
        | some r => (recordDualRay s r, 0)
        | none => solveLoop fuel { s with isPrimalPhase1 := false }
      else
        (setOptimal s, 0)
    | some j =>
      match ratioTest s j with
      | none => (recordPrimalRay s j, 0)
      | some r =>
        ((solveLoop fuel (pivotOp s j r)).1,
         (solveLoop fuel (pivotOp s j r)).2 + 1)

/-- `solve()` runs the pivot loop to a terminal status; the result pairs
the final engine state with the number of pivots performed. -/
def solve (s : SolveState) (fuel : Nat) : SolveState × Nat :=
  solveLoop fuel s

/-- The ray fields as they stand before any solve has recorded a ray: both
status flags false and all four ray scalars unpopulated. -/
def cleanRays (s : SolveState) : Prop :=
  s.simplex_lp_status.has_dual_ray = false ∧
  s.simplex_lp_status.has_primal_ray = false ∧
  s.dual_ray_row_ = none ∧
  s.dual_ray_sign_ = none ∧
  s.primal_ray_col_ = none ∧
  s.primal_ray_sign_ = none

instance (s : SolveState) : Decidable (cleanRays s) := by
  unfold cleanRays; infer_instance

/-- The ray contract of the spec: the dual-ray fields are populated exactly
when the solve terminated `INFEASIBLE` with `has_dual_ray` set, and the
primal-ray fields exactly when it terminated `UNBOUNDED` with
`has_primal_ray` set. -/
def raysMatchStatus (s : SolveState) : Prop :=
  (s.simplex_lp_status.has_dual_ray = true ↔
    s.model_status = SimplexSolutionStatus.INFEASIBLE) ∧
  (s.dual_ray_row_.isSome = true ↔ s.simplex_lp_status.has_dual_ray = true) ∧
  (s.dual_ray_sign_.isSome = true ↔ s.simplex_lp_status.has_dual_ray = true) ∧
  (s.simplex_lp_status.has_primal_ray = true ↔
    s.model_status = SimplexSolutionStatus.UNBOUNDED) ∧
  (s.primal_ray_col_.isSome = true ↔
    s.simplex_lp_status.has_primal_ray = true) ∧
  (s.primal_ray_sign_.isSome = true ↔
    s.simplex_lp_status.has_primal_ray = true)

instance (s : SolveState) : Decidable (raysMatchStatus s) := by
  unfold raysMatchStatus; infer_instance

/-- The reference members of class `HEkk` as declared in the header
(`HighsLp& lp_;`, `SimplexBasis& simplex_basis_;`, `HighsOptions& options_;`):
for each, whether the reference type is const-qualified, plus whether any
member of the class stores a copy or generation counter of the referenced
data with which a mutation check could be performed. -/
structure HEkkReferenceDecl where
  lp_ref_is_const : Bool
  simplex_basis_ref_is_const : Bool
  options_ref_is_const : Bool
  has_mutation_check : Bool
deriving DecidableEq, Repr

/-- The declaration facts of `HEkk.h` lines 158-164: all three references
are non-const, and no copy or generation-counter member is declared
anywhere in the class. -/
def hekkReferenceDecl : HEkkReferenceDecl :=
  { lp_ref_is_const := false
    simplex_basis_ref_is_const := false
    options_ref_is_const := false
    has_mutation_check := false }

/-- By contrast, the `HighsModelObject` header does hold its LP as
`const HighsLp& lp_;`. -/
def highsModelObject_lp_ref_is_const : Bool := true

/-- The property asserted by the claim, in the spec's words: the engine
holds the LP and options only as a read-only borrowed view and verifies (by
copy or generation-counter check) that the view has not mutated. -/
def readOnlyVerifiedView (d : HEkkReferenceDecl) : Prop :=
  d.lp_ref_is_const = true ∧
  d.options_ref_is_const = true ∧
  d.has_mutation_check = true

instance (d : HEkkReferenceDecl) : Decidable (readOnlyVerifiedView d) := by
  unfold readOnlyVerifiedView; infer_instance

/-- The constructor initializer list of `HEkk` (header lines 59-60) binds
each reference member to the corresponding constructor argument and
initializes nothing else; referenced-object identities are embedded as
naturals. -/
structure HEkkRefs where
  lp_ : Nat
  simplex_basis_ : Nat
  options_ : Nat
deriving DecidableEq, Repr

/-- `HEkk(HighsLp& lp, SimplexBasis& simplex_basis, HighsOptions& options)
: lp_(lp), simplex_basis_(simplex_basis), options_(options) {}`. -/
def constructRefs (lp simplex_basis options : Nat) : HEkkRefs :=
  { lp_ := lp, simplex_basis_ := simplex_basis, options_ := options }

/-- The engine members C10 touches: the `const` member
`algorithm` with its in-class initializer, the status bundle, and the
strategy options copied from `HighsOptions`. -/
structure HEkk where
  algorithm : SimplexAlgorithm
  simplex_lp_status : HighsEkkStatus
  simplex_strategy : Int
  dual_edge_weight_strategy : Int
  primal_edge_weight_strategy : Int
  price_strategy : Int
deriving DecidableEq, Repr

/-- Construction of the engine: the header declares
`const SimplexAlgorithm algorithm = SimplexAlgorithm::PRIMAL;` and the
constructor does not mention `algorithm`, so the in-class initializer
applies whatever strategy options are supplied; the status bundle takes its
all-false defaults. -/
def constructHEkk (simplex_strategy dual_edge_weight_strategy
    primal_edge_weight_strategy price_strategy : Int) : HEkk :=
  { algorithm := SimplexAlgorithm.PRIMAL
    simplex_lp_status := {}
    simplex_strategy := simplex_strategy
    dual_edge_weight_strategy := dual_edge_weight_strategy
    primal_edge_weight_strategy := primal_edge_weight_strategy
    price_strategy := price_strategy }

/-- Modelled from the spec: the mutating operations of the engine's
lifetime (`init()`, `solve()`, a pivot's `update()`, a rebuild). -/
inductive EngineOp where
  | init
  | solveOp
  | updateOp
  | rebuild
deriving DecidableEq, Repr

/-- Modelled from the spec: the effect of each lifetime operation on the
engine members above.  The operations may rewrite the status bundle, but
`algorithm` is declared `const`, so no operation can assign it. -/
def applyEngineOp (e : HEkk) : EngineOp → HEkk
  | EngineOp.init => { e with simplex_lp_status := afterRebuild e.simplex_lp_status }
  | EngineOp.solveOp => { e with simplex_lp_status := afterRebuild e.simplex_lp_status }
  | EngineOp.updateOp => { e with simplex_lp_status := afterBasisChange e.simplex_lp_status }
  | EngineOp.rebuild => { e with simplex_lp_status := afterRebuild e.simplex_lp_status }

/-- A concrete phase-2 engine state that is already optimal: no reduced
cost is negative. -/
def optimalSolveState : SolveState :=
  { tableau := [[1, 1]], baseValue_ := [3], workDual_ := [1, 0],
    primal_objective_value := 0, isPrimalPhase1 := false,
    model_status := SimplexSolutionStatus.UNSET,
    simplex_lp_status := {},
    dual_ray_row_ := none, dual_ray_sign_ := none,
    primal_ray_col_ := none, primal_ray_sign_ := none }

/-- A concrete phase-1 engine state with residual infeasibility: pricing
has no candidate and basic variable 0 sits below its bound. -/
def infeasibleSolveState : SolveState :=
  { tableau := [[1, 1]], baseValue_ := [-1], workDual_ := [0, 1],
    primal_objective_value := 0, isPrimalPhase1 := true,
    model_status := SimplexSolutionStatus.UNSET,
    simplex_lp_status := {},
    dual_ray_row_ := none, dual_ray_sign_ := none,
    primal_ray_col_ := none, primal_ray_sign_ := none }

/-! ### Theorems -/

/-- Setting position `i` (currently holding `a`) to `v` trades the one
occurrence of `a` for one of `v` in the element counts. -/
lemma count_set_add (l : List NonbasicFlag) (i : Nat) (a v x : NonbasicFlag)
    (h : l[i]? = some a) :
    (l.set i v).count x + (if a = x then 1 else 0)
      = l.count x + (if v = x then 1 else 0) := by
  induction l generalizing i with
  | nil => simp at h
  | cons b t ih =>
    cases i with
    | zero =>
      simp only [List.getElem?_cons_zero, Option.some_inj] at h
      subst h
      simp only [List.set_cons_zero, List.count_cons, beq_iff_eq]
      omega
    | succ n =>
      simp only [List.getElem?_cons_succ] at h
      simp only [List.set_cons_succ, List.count_cons, beq_iff_eq]
      have := ih n h
      omega

/-- The basic count and the nonbasic count partition the flag list. -/
lemma count_basic_add_countP_isNonbasic (l : List NonbasicFlag) :
    l.count NonbasicFlag.basic + l.countP NonbasicFlag.isNonbasic = l.length := by
  induction l with
  | nil => simp
  | cons f t ih =>
    cases f <;>
      simp [List.count_cons, List.countP_cons, NonbasicFlag.isNonbasic] <;>
      omega

/-- C1: after each pivot's `update()` the basic/nonbasic partition still has
exactly `numRow` basic variables (`basis_index` keeps `numRow` entries,
the basic-flag count stays `numRow`) and exactly `numTot - numRow` variables
are flagged nonbasic: the basic-count invariant is preserved by the basis
update operation. -/
theorem update_preserves_basis_count
    (numRow numTot : Nat) (b : BasisInfo) (rowOut columnIn : Nat)
    (outFlag fIn : NonbasicFlag)
    (hinv : basisCountInvariant numRow numTot b)
    (_hrow : rowOut < numRow)
    (hfin : b.nonbasic_flag[columnIn]? = some fIn)
    (hinNB : fIn ≠ NonbasicFlag.basic)
    (hout : b.nonbasic_flag[b.basis_index.getD rowOut 0]?
      = some NonbasicFlag.basic)
    (houtNB : outFlag ≠ NonbasicFlag.basic) :
    basisCountInvariant numRow numTot (update b rowOut columnIn outFlag) ∧
    (update b rowOut columnIn outFlag).nonbasic_flag.countP
      NonbasicFlag.isNonbasic = numTot - numRow := by
  obtain ⟨hlen, hflen, hcount⟩ := hinv
  have hne : b.basis_index.getD rowOut 0 ≠ columnIn := by
    intro he
    rw [he, hfin] at hout
    exact hinNB (Option.some_inj.mp hout)
  have e1 := count_set_add b.nonbasic_flag columnIn fIn NonbasicFlag.basic
    NonbasicFlag.basic hfin
  have hl1out :
      (b.nonbasic_flag.set columnIn NonbasicFlag.basic)[b.basis_index.getD
        rowOut 0]? = b.nonbasic_flag[b.basis_index.getD rowOut 0]? :=
    List.getElem?_set_ne (fun he => hne he.symm)
  have e2 := count_set_add (b.nonbasic_flag.set columnIn NonbasicFlag.basic)
    (b.basis_index.getD rowOut 0) NonbasicFlag.basic outFlag
    NonbasicFlag.basic (by rw [hl1out]; exact hout)
  simp only [if_pos rfl, if_neg hinNB, if_neg houtNB] at e1 e2
  have hcount2 :
      (update b rowOut columnIn outFlag).nonbasic_flag.count
        NonbasicFlag.basic = numRow := by
    simp only [update]
    omega
  refine ⟨⟨?_, ?_, hcount2⟩, ?_⟩
  · simp [update, hlen]
  · simp [update, hflen]
  · have := count_basic_add_countP_isNonbasic
      (update b rowOut columnIn outFlag).nonbasic_flag
    have hflen2 : (update b rowOut columnIn outFlag).nonbasic_flag.length
        = numTot := by simp [update, hflen]
    omega

/-- Witness for C1 at a concrete one-row, one-column basis: variable 1 is
basic, variable 0 enters at the pivot and variable 1 leaves to its upper
bound; the basic-count invariant holds before and after. -/
theorem update_preserves_basis_count_witness :
    basisCountInvariant 1 2
      (BasisInfo.mk [1] [NonbasicFlag.atLower, NonbasicFlag.basic]) ∧
    (basisCountInvariant 1 2
      (update (BasisInfo.mk [1] [NonbasicFlag.atLower, NonbasicFlag.basic])
        0 0 NonbasicFlag.atUpper) ∧
    (update (BasisInfo.mk [1] [NonbasicFlag.atLower, NonbasicFlag.basic])
        0 0 NonbasicFlag.atUpper).nonbasic_flag.countP
      NonbasicFlag.isNonbasic = 2 - 1) :=
  ⟨by decide,
   update_preserves_basis_count 1 2
     (BasisInfo.mk [1] [NonbasicFlag.atLower, NonbasicFlag.basic]) 0 0
     NonbasicFlag.atUpper NonbasicFlag.atLower (by decide) (by decide)
     (by decide) (by decide) (by decide) (by decide)⟩

/-- C2: on construction of the engine every boolean flag of the
`HighsEkkStatus` bundle is `false` and `solution_status` is `UNSET` (from the
in-class initializers of the header, which the engine constructor does not
override); flags become true exactly as the corresponding data is computed
(a rebuild sets the flags of the data it recomputes and no others) and are
reset when a basis change invalidates that data (a basis change clears the
freshness flags and no others). -/
theorem initial_status_all_false :
    (initialHighsEkkStatus.valid = false ∧
     initialHighsEkkStatus.is_dualised = false ∧
     initialHighsEkkStatus.is_permuted = false ∧
     initialHighsEkkStatus.scaling_tried = false ∧
     initialHighsEkkStatus.has_basis = false ∧
     initialHighsEkkStatus.has_matrix_col_wise = false ∧
     initialHighsEkkStatus.has_matrix_row_wise = false ∧
     initialHighsEkkStatus.has_factor_arrays = false ∧
     initialHighsEkkStatus.has_dual_steepest_edge_weights = false ∧
     initialHighsEkkStatus.has_nonbasic_dual_values = false ∧
     initialHighsEkkStatus.has_basic_primal_values = false ∧
     initialHighsEkkStatus.has_invert = false ∧
     initialHighsEkkStatus.has_fresh_invert = false ∧
     initialHighsEkkStatus.has_fresh_rebuild = false ∧
     initialHighsEkkStatus.has_dual_objective_value = false ∧
     initialHighsEkkStatus.has_primal_objective_value = false ∧
     initialHighsEkkStatus.has_dual_ray = false ∧
     initialHighsEkkStatus.has_primal_ray = false ∧
     initialHighsEkkStatus.solution_status = SimplexSolutionStatus.UNSET) ∧
    (∀ st : HighsEkkStatus,
      (afterRebuild st).has_invert = true ∧
      (afterRebuild st).has_fresh_invert = true ∧
      (afterRebuild st).has_fresh_rebuild = true ∧
      (afterRebuild st).has_nonbasic_dual_values = true ∧
      (afterRebuild st).has_basic_primal_values = true ∧
      (afterRebuild st).has_dual_objective_value = true ∧
      (afterRebuild st).has_primal_objective_value = true ∧
      (afterRebuild st).valid = st.valid ∧
      (afterRebuild st).has_basis = st.has_basis ∧
      (afterRebuild st).has_matrix_col_wise = st.has_matrix_col_wise ∧
      (afterRebuild st).has_matrix_row_wise = st.has_matrix_row_wise ∧
      (afterRebuild st).has_dual_ray = st.has_dual_ray ∧
      (afterRebuild st).has_primal_ray = st.has_primal_ray ∧
      (afterRebuild st).solution_status = st.solution_status) ∧
    (∀ st : HighsEkkStatus,
      (afterBasisChange st).has_fresh_invert = false ∧
      (afterBasisChange st).has_fresh_rebuild = false ∧
      (afterBasisChange st).has_invert = st.has_invert ∧
      (afterBasisChange st).has_basis = st.has_basis ∧
      (afterBasisChange st).has_nonbasic_dual_values
        = st.has_nonbasic_dual_values ∧
      (afterBasisChange st).has_basic_primal_values
        = st.has_basic_primal_values ∧
      (afterBasisChange st).solution_status = st.solution_status) := by
  refine ⟨?_, fun st => ?_, fun st => ?_⟩ <;>
    simp [initialHighsEkkStatus, afterRebuild, afterBasisChange]

/-- A pivot's incremental update never changes `update_limit`. -/
lemma afterPivotUpdate_update_limit (s : FactorUpdateState) (w : Bool) :
    (afterPivotUpdate s w).update_limit = s.update_limit := by
  simp only [afterPivotUpdate, computeFactor]
  split <;> rfl

/-- A pivot's incremental update leaves `update_count` at most
`update_limit`. -/
lemma afterPivotUpdate_update_count_le (s : FactorUpdateState) (w : Bool) :
    (afterPivotUpdate s w).update_count ≤ s.update_limit := by
  simp only [afterPivotUpdate, computeFactor]
  split
  · exact Nat.zero_le _
  · next h =>
    push_neg at h
    dsimp only at h ⊢
    omega

/-- C3: whenever the number of incremental updates reaches `update_limit`
or a stability warning occurs, the forced rebuild resets `update_count` to
zero, and consequently `update_count` never exceeds `update_limit`: not
after a single pivot, and not anywhere along a pivot sequence started from
a fresh factorization. -/
theorem update_count_never_exceeds_limit
    (s : FactorUpdateState) (w : Bool) (warnings : List Bool) :
    ((w = true ∨ s.update_limit ≤ s.update_count + 1) →
      (afterPivotUpdate s w).update_count = 0) ∧
    (afterPivotUpdate s w).update_count ≤ s.update_limit ∧
    (runPivotUpdates (computeFactor s) warnings).update_count
      ≤ s.update_limit := by
  refine ⟨?_, afterPivotUpdate_update_count_le s w, ?_⟩
  · intro h
    simp only [afterPivotUpdate, computeFactor]
    rw [if_pos]
    exact h
  · have key : ∀ (l : List Bool) (t : FactorUpdateState),
        t.update_count ≤ t.update_limit →
        (runPivotUpdates t l).update_count
          ≤ (runPivotUpdates t l).update_limit := by
      intro l
      induction l with
      | nil => intro t ht; exact ht
      | cons w0 l0 ih =>
        intro t ht
        have hstep := afterPivotUpdate_update_count_le t w0
        have hlim := afterPivotUpdate_update_limit t w0
        exact ih (afterPivotUpdate t w0) (by omega)
    have hlimrun : ∀ (l : List Bool) (t : FactorUpdateState),
        (runPivotUpdates t l).update_limit = t.update_limit := by
      intro l
      induction l with
      | nil => intro t; rfl
      | cons w0 l0 ih =>
        intro t
        have := afterPivotUpdate_update_limit t w0
        simp only [runPivotUpdates, List.foldl_cons] at ih ⊢
        rw [ih (afterPivotUpdate t w0), this]
    have h0 : (computeFactor s).update_count ≤ (computeFactor s).update_limit :=
      Nat.zero_le _
    have := key warnings (computeFactor s) h0
    rw [hlimrun warnings (computeFactor s)] at this
    exact this

/-- Witness for C3 at `update_count = 2`, `update_limit = 3`: the third
update reaches the limit and forces a rebuild that zeroes the count, and the
count stays at most 3 along a concrete pivot sequence. -/
theorem update_count_never_exceeds_limit_witness :
    (afterPivotUpdate (FactorUpdateState.mk 2 3) false).update_count = 0 ∧
    (afterPivotUpdate (FactorUpdateState.mk 2 3) false).update_count ≤ 3 ∧
    (runPivotUpdates (computeFactor (FactorUpdateState.mk 2 3))
      [false, true, false]).update_count ≤ 3 :=
  ⟨(update_count_never_exceeds_limit (FactorUpdateState.mk 2 3) false
      [false, true, false]).1 (Or.inr (by decide)),
   (update_count_never_exceeds_limit (FactorUpdateState.mk 2 3) false
      [false, true, false]).2.1,
   (update_count_never_exceeds_limit (FactorUpdateState.mk 2 3) false
      [false, true, false]).2.2⟩

/-- C4: after `initialiseNonbasicWorkValue()` runs, every variable flagged
at its lower bound has `workValue` equal to `workLower`, every variable
flagged at its upper bound has `workValue` equal to `workUpper`, and every
free nonbasic variable has `workValue` zero. -/
theorem initialiseNonbasicWorkValue_correct
    (flags : List NonbasicFlag) (ls us vs : List ℚ) (i : Nat)
    (hl : ls.length = flags.length) (hu : us.length = flags.length)
    (hv : vs.length = flags.length) :
    (flags[i]? = some NonbasicFlag.atLower →
      (initialiseNonbasicWorkValue flags ls us vs)[i]? = ls[i]?) ∧
    (flags[i]? = some NonbasicFlag.atUpper →
      (initialiseNonbasicWorkValue flags ls us vs)[i]? = us[i]?) ∧
    (flags[i]? = some NonbasicFlag.free →
      (initialiseNonbasicWorkValue flags ls us vs)[i]? = some 0) := by
  induction flags generalizing ls us vs i with
  | nil => simp
  | cons f fs ih =>
    cases ls with
    | nil => simp at hl
    | cons l ls0 =>
      cases us with
      | nil => simp at hu
      | cons u us0 =>
        cases vs with
        | nil => simp at hv
        | cons v vs0 =>
          simp only [List.length_cons] at hl hu hv
          cases i with
          | zero =>
            cases f <;> simp [initialiseNonbasicWorkValue]
          | succ n =>
            simp only [initialiseNonbasicWorkValue, List.getElem?_cons_succ]
            exact ih ls0 us0 vs0 n (by omega) (by omega) (by omega)

/-- Witness for C4 on a concrete four-variable state: variable 0 is at its
lower bound 1, variable 1 at its upper bound 6, variable 2 free, variable 3
basic. -/
theorem initialiseNonbasicWorkValue_correct_witness :
    (initialiseNonbasicWorkValue
      [NonbasicFlag.atLower, NonbasicFlag.atUpper, NonbasicFlag.free,
        NonbasicFlag.basic]
      [(1 : ℚ), 2, 3, 4] [(5 : ℚ), 6, 7, 8] [(9 : ℚ), 10, 11, 12])[0]?
      = some (1 : ℚ) ∧
    (initialiseNonbasicWorkValue
      [NonbasicFlag.atLower, NonbasicFlag.atUpper, NonbasicFlag.free,
        NonbasicFlag.basic]
      [(1 : ℚ), 2, 3, 4] [(5 : ℚ), 6, 7, 8] [(9 : ℚ), 10, 11, 12])[1]?
      = some (6 : ℚ) ∧
    (initialiseNonbasicWorkValue
      [NonbasicFlag.atLower, NonbasicFlag.atUpper, NonbasicFlag.free,
        NonbasicFlag.basic]
      [(1 : ℚ), 2, 3, 4] [(5 : ℚ), 6, 7, 8] [(9 : ℚ), 10, 11, 12])[2]?
      = some (0 : ℚ) :=
  ⟨(initialiseNonbasicWorkValue_correct
      [NonbasicFlag.atLower, NonbasicFlag.atUpper, NonbasicFlag.free,
        NonbasicFlag.basic]
      [(1 : ℚ), 2, 3, 4] [(5 : ℚ), 6, 7, 8] [(9 : ℚ), 10, 11, 12] 0
      (by decide) (by decide) (by decide)).1 (by decide),
   (initialiseNonbasicWorkValue_correct
      [NonbasicFlag.atLower, NonbasicFlag.atUpper, NonbasicFlag.free,
        NonbasicFlag.basic]
      [(1 : ℚ), 2, 3, 4] [(5 : ℚ), 6, 7, 8] [(9 : ℚ), 10, 11, 12] 1
      (by decide) (by decide) (by decide)).2.1 (by decide),
   (initialiseNonbasicWorkValue_correct
      [NonbasicFlag.atLower, NonbasicFlag.atUpper, NonbasicFlag.free,
        NonbasicFlag.basic]
      [(1 : ℚ), 2, 3, 4] [(5 : ℚ), 6, 7, 8] [(9 : ℚ), 10, 11, 12] 2
      (by decide) (by decide) (by decide)).2.2 (by decide)⟩

/-- A Devex pivot update never drops a weight below the floor: the
recurrence takes a `max` with the old weight. -/
lemma updateDevexWeights_floor (ws alphas : List ℚ) (ap pw : ℚ)
    (h : ∀ x ∈ ws, (1 : ℚ) ≤ x) :
    ∀ y ∈ updateDevexWeights ws alphas ap pw, (1 : ℚ) ≤ y := by
  induction ws generalizing alphas with
  | nil => simp [updateDevexWeights]
  | cons w ws0 ih =>
    cases alphas with
    | nil => simp [updateDevexWeights]
    | cons a as0 =>
      intro y hy
      simp only [updateDevexWeights, List.zipWith_cons_cons,
        List.mem_cons] at hy
      rcases hy with hy | hy
      · have hw : (1 : ℚ) ≤ w := h w (List.mem_cons_self w ws0)
        calc (1 : ℚ) ≤ w := hw
          _ ≤ max w (devexCandidate a ap pw) := le_max_left _ _
          _ = y := hy.symm
      · exact ih as0 (fun x hx => h x (List.mem_cons_of_mem w hx)) y hy

/-- C6: every entry of `devex_weight` immediately after a weight reset
equals 1, and along any sequence of Devex pivot updates following a reset
every weight stays at least the positive floor 1. -/
theorem devex_weight_floor (n : Nat) (updates : List (List ℚ × ℚ × ℚ)) :
    (∀ x ∈ resetDevexWeights n, x = 1) ∧
    (∀ w ∈ runDevexUpdates (resetDevexWeights n) updates, (1 : ℚ) ≤ w) := by
  constructor
  · intro x hx
    exact List.eq_of_mem_replicate hx
  · have key : ∀ (us : List (List ℚ × ℚ × ℚ)) (ws : List ℚ),
        (∀ x ∈ ws, (1 : ℚ) ≤ x) →
        ∀ w ∈ runDevexUpdates ws us, (1 : ℚ) ≤ w := by
      intro us
      induction us with
      | nil => intro ws h w hw; exact h w hw
      | cons u us0 ih =>
        intro ws h w hw
        exact ih (updateDevexWeights ws u.1 u.2.1 u.2.2)
          (updateDevexWeights_floor ws u.1 u.2.1 u.2.2 h) w hw
    refine key updates (resetDevexWeights n) ?_
    intro x hx
    rw [List.eq_of_mem_replicate hx]

/-- Witness for C6 with two weights and one concrete pivot update: the reset
weights are 1 and the updated weight 20 is at least the floor. -/
theorem devex_weight_floor_witness :
    (1 : ℚ) = 1 ∧
    (1 : ℚ) ≤ (20 : ℚ) :=
  ⟨(devex_weight_floor 2 [([4, -3], 2, 5)]).1 1 (by
      norm_num [resetDevexWeights, List.replicate]),
   (devex_weight_floor 2 [([4, -3], 2, 5)]).2 20 (by
      norm_num [runDevexUpdates, updateDevexWeights, resetDevexWeights,
        devexCandidate, List.replicate, List.zipWith])⟩

/-- A terminal `OPTIMAL` state of the pivot loop is a fixed point: pricing
finds no entering candidate there, the phase-1 flag is off, and declaring
optimality again does not change the state. -/
lemma solveLoop_optimal_fixed :
    ∀ (fuel : Nat) (s : SolveState),
      (solveLoop fuel s).1.model_status = SimplexSolutionStatus.OPTIMAL →
      chooseEntering (solveLoop fuel s).1 = none ∧
      (solveLoop fuel s).1.isPrimalPhase1 = false ∧
      setOptimal (solveLoop fuel s).1 = (solveLoop fuel s).1 := by
  intro fuel
  induction fuel with
  | zero =>
    intro s h
    simp [solveLoop, setIterationLimit] at h
  | succ f ih =>
    intro s h
    cases hc : chooseEntering s with
    | none =>
      cases hp : s.isPrimalPhase1 with
      | false =>
        have heq : solveLoop (f + 1) s = (setOptimal s, 0) := by
          simp [solveLoop, hc, hp]
        rw [heq] at h ⊢
        refine ⟨?_, ?_, ?_⟩
        · simpa [chooseEntering, setOptimal] using hc
        · simpa [setOptimal] using hp
        · rfl
      | true =>
        cases hf : s.baseValue_.findIdx? (fun v => decide (v < 0)) with
        | some r =>
          have heq : solveLoop (f + 1) s = (recordDualRay s r, 0) := by
            simp [solveLoop, hc, hp, hf]
          rw [heq] at h
          simp [recordDualRay] at h
        | none =>
          have heq : solveLoop (f + 1) s
              = solveLoop f { s with isPrimalPhase1 := false } := by
            simp [solveLoop, hc, hp, hf]
          rw [heq] at h ⊢
          exact ih _ h
    | some j =>
      cases hr : ratioTest s j with
      | none =>
        have heq : solveLoop (f + 1) s = (recordPrimalRay s j, 0) := by
          simp [solveLoop, hc, hr]
        rw [heq] at h
        simp [recordPrimalRay] at h
      | some r =>
        have heq : (solveLoop (f + 1) s).1
            = (solveLoop f (pivotOp s j r)).1 := by
          simp [solveLoop, hc, hr]
        rw [heq] at h ⊢
        exact ih _ h

/-- C5: calling `solve()` again on an engine whose previous `solve()`
reached terminal status `OPTIMAL`, with the state unchanged, performs zero
pivot iterations and returns the identical state — the same status, the
same basic primal values and reduced costs, and the same objective value. -/
theorem solve_idempotent_after_optimal (s : SolveState) (fuel fuel' : Nat)
    (h : (solve s fuel).1.model_status = SimplexSolutionStatus.OPTIMAL)
    (hf : 0 < fuel') :
    solve (solve s fuel).1 fuel' = ((solve s fuel).1, 0) := by
  obtain ⟨hc, hp, hfix⟩ := solveLoop_optimal_fixed fuel s h
  cases fuel' with
  | zero => exact absurd hf (by omega)
  | succ f =>
    show solveLoop (f + 1) (solve s fuel).1 = _
    simp only [solve]
    simp [solveLoop, hc, hp, hfix]

/-- Witness for C5 on a concrete already-optimal state: the first solve
terminates `OPTIMAL` and the second solve returns the identical state with
zero pivots. -/
theorem solve_idempotent_after_optimal_witness :
    solve (solve optimalSolveState 1).1 1 = ((solve optimalSolveState 1).1, 0) :=
  solve_idempotent_after_optimal optimalSolveState 1 1 (by decide) (by decide)

/-- Along the pivot loop, starting from unpopulated ray data, the final
state satisfies the ray contract: ray fields populated exactly under the
matching terminal status and flag. -/
lemma solveLoop_rays :
    ∀ (fuel : Nat) (s : SolveState), cleanRays s →
      raysMatchStatus (solveLoop fuel s).1 := by
  intro fuel
  induction fuel with
  | zero =>
    intro s h
    obtain ⟨h1, h2, h3, h4, h5, h6⟩ := h
    simp [solveLoop, setIterationLimit, raysMatchStatus, h1, h2, h3, h4, h5,
      h6]
  | succ f ih =>
    intro s h
    obtain ⟨h1, h2, h3, h4, h5, h6⟩ := h
    cases hc : chooseEntering s with
    | none =>
      cases hp : s.isPrimalPhase1 with
      | false =>
        have heq : solveLoop (f + 1) s = (setOptimal s, 0) := by
          simp [solveLoop, hc, hp]
        rw [heq]
        simp [setOptimal, raysMatchStatus, h1, h2, h3, h4, h5, h6]
      | true =>
        cases hf : s.baseValue_.findIdx? (fun v => decide (v < 0)) with
        | some r =>
          have heq : solveLoop (f + 1) s = (recordDualRay s r, 0) := by
            simp [solveLoop, hc, hp, hf]
          rw [heq]
          simp [recordDualRay, raysMatchStatus, h2, h4, h5, h6]
        | none =>
          have heq : solveLoop (f + 1) s
              = solveLoop f { s with isPrimalPhase1 := false } := by
            simp [solveLoop, hc, hp, hf]
          rw [heq]
          exact ih _ ⟨h1, h2, h3, h4, h5, h6⟩
    | some j =>
      cases hr : ratioTest s j with
      | none =>
        have heq : solveLoop (f + 1) s = (recordPrimalRay s j, 0) := by
          simp [solveLoop, hc, hr]
        rw [heq]
        simp [recordPrimalRay, raysMatchStatus, h1, h3, h4]
      | some r =>
        have heq : (solveLoop (f + 1) s).1
            = (solveLoop f (pivotOp s j r)).1 := by
          simp [solveLoop, hc, hr]
        rw [heq]
        exact ih _ ⟨h1, h2, h3, h4, h5, h6⟩

/-- C7: for a solve started with unpopulated ray data, the dual-ray fields
(`dual_ray_row_`, `dual_ray_sign_`) end up populated exactly when the solve
terminates `INFEASIBLE` with `has_dual_ray` set, and the primal-ray fields
(`primal_ray_col_`, `primal_ray_sign_`) exactly when it terminates
`UNBOUNDED` with `has_primal_ray` set; under a false flag the fields remain
unpopulated. -/
theorem ray_fields_iff_status (s : SolveState) (fuel : Nat)
    (h : cleanRays s) :
    raysMatchStatus (solve s fuel).1 :=
  solveLoop_rays fuel s h

/-- Witness for C7 on a concrete phase-1 infeasible state: the solve
terminates `INFEASIBLE`, sets `has_dual_ray` and populates exactly the
dual-ray fields. -/
theorem ray_fields_iff_status_witness :
    raysMatchStatus (solve infeasibleSolveState 1).1 :=
  ray_fields_iff_status infeasibleSolveState 1 (by decide)

/-- C9 counterexample: the engine's reference members, as actually declared
in the header, do not form a read-only borrowed view with a mutation check —
`lp_` and `options_` are non-const references and no copy or
generation-counter member exists. -/
theorem hekk_not_readonly_verified_view :
    ¬ readOnlyVerifiedView hekkReferenceDecl := by
  decide

/-- C9 (amended): the engine holds the LP, simplex basis and options by
reference bound at construction — the constructor initializer list binds
`lp_`, `simplex_basis_` and `options_` to its arguments — but the
references are not const-qualified, and the class stores no copy or
generation counter, so no verification that the view has not mutated
between `init()` and `solve()` exists; only the separate
`HighsModelObject` holds its LP as a const reference. -/
theorem hekk_references_mutable_unchecked (lp simplex_basis options : Nat) :
    (constructRefs lp simplex_basis options).lp_ = lp ∧
    (constructRefs lp simplex_basis options).simplex_basis_ = simplex_basis ∧
    (constructRefs lp simplex_basis options).options_ = options ∧
    hekkReferenceDecl.lp_ref_is_const = false ∧
    hekkReferenceDecl.simplex_basis_ref_is_const = false ∧
    hekkReferenceDecl.options_ref_is_const = false ∧
    hekkReferenceDecl.has_mutation_check = false ∧
    highsModelObject_lp_ref_is_const = true := by
  refine ⟨rfl, rfl, rfl, rfl, rfl, rfl, rfl, rfl⟩

/-- Applying a lifetime operation never changes the `const` member
`algorithm`. -/
lemma applyEngineOp_algorithm (e : HEkk) (op : EngineOp) :
    (applyEngineOp e op).algorithm = e.algorithm := by
  cases op <;> rfl

/-- C10: for every engine instance, `algorithm` equals
`SimplexAlgorithm::PRIMAL` at construction — whatever `simplex_strategy`,
`dual_edge_weight_strategy`, `primal_edge_weight_strategy` and
`price_strategy` are supplied — and stays `PRIMAL` across every sequence of
lifetime operations: the engine only ever runs the primal simplex
algorithm. -/
theorem algorithm_always_primal
    (simplex_strategy dual_edge_weight_strategy primal_edge_weight_strategy
      price_strategy : Int) (ops : List EngineOp) :
    (constructHEkk simplex_strategy dual_edge_weight_strategy
      primal_edge_weight_strategy price_strategy).algorithm
      = SimplexAlgorithm.PRIMAL ∧
    (ops.foldl applyEngineOp
      (constructHEkk simplex_strategy dual_edge_weight_strategy
        primal_edge_weight_strategy price_strategy)).algorithm
      = SimplexAlgorithm.PRIMAL := by
  refine ⟨rfl, ?_⟩
  have key : ∀ (l : List EngineOp) (e : HEkk),
      (l.foldl applyEngineOp e).algorithm = e.algorithm := by
    intro l
    induction l with
    | nil => intro e; rfl
    | cons op l0 ih =>
      intro e
      simp only [List.foldl_cons]
      rw [ih (applyEngineOp e op), applyEngineOp_algorithm]
  rw [key]
  rfl

end HEkkSpec

